import Mathlib

/-!
Verification of the node evaluation core in `src/rust/engine/src/nodes.rs`.

The development shallowly embeds the data model and the operations of the
Select / Task node evaluator: the failure taxonomy, `Select::run` with its
variant check, literal match and candidate disambiguation
(`choose_task_result`), the Task clause fan-out and generator drive loop
(`gen_get`, `generate`), and `ExecuteProcess::lift`.

Host interop (the `externs` module) is kept abstract as a structure of
functions, and the results of candidate node pipelines spawned through the
graph store (`context.get`) are abstracted by an oracle
`Entry -> Except Failure Value`: every candidate future eventually settles to
such a value, and the claims under consideration quantify over all candidate
behaviours.  Asynchronous joins (`future::join_all`) are determinized to
list order, which is the order in which the source polls its futures.
-/

deriving instance DecidableEq for Except

namespace Nodes

/-- Modelled from the spec: the reasons of `core::Noop` with their severity
order `NoTask < NoVariant < Cycle` (the `core` crate is not under `src/`;
the spec fixes this ranking, with `Cycle` highest). -/
inductive Noop where
  | NoTask
  | NoVariant
  | Cycle
deriving DecidableEq, Repr

/-- Severity rank of a Noop reason: `NoTask < NoVariant < Cycle`. -/
def Noop.rank : Noop → Nat
  | .NoTask => 0
  | .NoVariant => 1
  | .Cycle => 2

/-- The update performed by `choose_task_result`'s loop:
`if noop > max_noop { max_noop = noop }`. -/
def noopMax (a b : Noop) : Noop :=
  if a.rank < b.rank then b else a

/-- Modelled from the spec: the Debug rendering of a `core::Noop` reason used
by `was_required`'s message (the `core` crate is not under `src/`); the
rendering names the reason for the missing dependency. -/
def noopDebug : Noop → String
  | .NoTask => "NoTask"
  | .NoVariant => "NoVariant"
  | .Cycle => "Cycle"

/-- An interned type id carried by a `Key` (opaque). -/
structure TypeId where
  id : Nat
deriving DecidableEq, Repr

/-- A type constraint / product type (opaque handle). -/
structure TypeConstraint where
  id : Nat
deriving DecidableEq, Repr

/-- An interned handle to a host value; carries its `type_id`. -/
structure Key where
  id : Nat
  type_id : TypeId
deriving DecidableEq, Repr

/-- A host-language value.  `host` is an opaque host value; `exception` is a
value produced by `externs::create_exception` (as used by `throw`). -/
inductive Value where
  | host : Nat → Value
  | exception : String → Value
deriving DecidableEq, Repr

instance : Inhabited Value := ⟨.host 0⟩

/-- The failure taxonomy of `core::Failure`: `Noop(reason)`,
`Throw(value, traceback)`, `Invalidated`. -/
inductive Failure where
  | Noop : Noop → Failure
  | Throw : Value → String → Failure
  | Invalidated
deriving DecidableEq, Repr

/-- Modelled from the spec: `core::throw(msg)` builds
`Failure::Throw(create_exception(msg), traceback)` (the `core` crate is not
under `src/`; `<pants native internals>` follows the traceback used by
`mk_error` in `src/rust/engine/src/nodes.rs`). -/
def throwF (msg : String) : Failure :=
  .Throw (.exception msg) "<pants native internals>"

/-- Faithful to `was_required` in `nodes.rs`: a `Noop` becomes a `Throw`
naming the missing dependency; other failures pass through. -/
def was_required (failure : Failure) : Failure :=
  match failure with
  | .Noop noop => throwF ("No source of required dependency: " ++ noopDebug noop)
  | f => f

/-- A `selectors::Get` / `externs::Get` issued by a generator:
`(product, subject)`. -/
structure GetRequest where
  product : TypeConstraint
  subject : Key
deriving DecidableEq, Repr

/-- The three shapes of `externs::GeneratorResponse`. -/
inductive GeneratorResponse where
  | Get : GetRequest → GeneratorResponse
  | GetMulti : List GetRequest → GeneratorResponse
  | Break : Value → GeneratorResponse

/-- The host interop layer (`externs`), abstracted as a structure of
functions.  Each field models the extern of the same name used in
`nodes.rs`; `store_tuple` builds the host tuple sent back into a
generator, `eval_none` is `externs::eval("None").unwrap()`, and
`parse_timeout` models `str::parse::<f64>` followed by
`Duration::from_millis((t * 1000.0) as u64)` (floating point is kept
abstract), returning `none` on a parse failure. -/
structure Externs where
  satisfied_by : TypeConstraint → Value → Bool
  project_str : Value → String → String
  project_multi : Value → String → List Value
  project_multi_strs : Value → String → List String
  project_ignoring_type : Value → String → Value
  val_for : Key → Value
  call : Value → List Value → Except Failure Value
  generator_send : Value → Value → Except Failure GeneratorResponse
  store_tuple : List Value → Value
  eval_none : Value
  from_hex_string : String → Except String String
  parse_timeout : String → Option Nat

/-- The type registry entries of `context.core.types` used by the embedded
operations. -/
structure Types where
  has_products : TypeConstraint
  generator : TypeConstraint
  process_request : TypeConstraint

/-- An opaque `rule_graph::Entry` handle. -/
structure Entry where
  id : Nat
deriving DecidableEq, Repr

/-- A `selectors::Select`: `(product, optional variant_key)`. -/
structure SelectorSelect where
  product : TypeConstraint
  variant_key : Option String
deriving DecidableEq, Repr

/-- Modelled from the spec: `Variants` is an ordered mapping from
variant-name to variant-value (the `core` crate is not under `src/`). -/
abbrev Variants := List (String × String)

/-- Modelled from the spec: `Variants::find` looks a variant key up in the
mapping. -/
def variantsFind (vs : Variants) (k : String) : Option String :=
  (vs.find? (fun p => p.1 == k)).map Prod.snd

/-- A `tasks::Task`: a user function plus its clause of selectors. -/
structure TaskDef where
  func : Key
  clause : List SelectorSelect
deriving DecidableEq, Repr

/-- The slice of `Context` visible to the embedded operations: the externs,
the type registry, `tasks.gen_singleton`, and the rule-graph queries used by
the `Select` constructors (`edges_for_inner(e).entries_for(JustSelect s)`,
`edges_for_inner(e).entries_for(JustGet g)` and
`Entry::matches_subject_type`). -/
structure Ctx where
  externs : Externs
  types : Types
  gen_singleton : TypeConstraint → Option Value
  edges_entries_for_select : Entry → SelectorSelect → List Entry
  edges_entries_for_get : Entry → TypeConstraint → TypeId → List Entry
  matches_subject_type : Entry → TypeId → Bool

/-- The eventual result of the candidate pipeline generated for a rule
entry by `Select::gen_nodes` (a `Task` node or one of the intrinsic chains,
all reached through `context.get`).  The claims quantify over all candidate
behaviours, so the pipelines are abstracted by this oracle. -/
abbrev Oracle := Entry → Except Failure Value

/-- The `Select` node: subject, variants, selector and the candidate rule
entries. -/
structure Select where
  subject : Key
  variants : Variants
  selector : SelectorSelect
  entries : List Entry
deriving DecidableEq, Repr

/-- `Select::new`: selector without variant, entries from
`edges.entries_for(SelectKey::JustSelect(selector))` where `edges` are the
inner edges of the calling entry (the call sites pass
`edges_for_inner(entry)`). -/
def Select.new (ctx : Ctx) (product : TypeConstraint) (subject : Key)
    (variants : Variants) (callingEntry : Entry) : Select :=
  let selector : SelectorSelect := ⟨product, none⟩
  { selector := selector, subject := subject, variants := variants,
    entries := ctx.edges_entries_for_select callingEntry selector }

/-- `Select::new_with_entries`: selector without variant, entries given
directly. -/
def Select.new_with_entries (product : TypeConstraint) (subject : Key)
    (variants : Variants) (entries : List Entry) : Select :=
  { selector := ⟨product, none⟩, subject := subject, variants := variants,
    entries := entries }

/-- `Select::new_with_selector`: entries for `JustSelect(selector)` on the
calling entry's inner edges, filtered by
`matches_subject_type(subject.type_id())`. -/
def Select.new_with_selector (ctx : Ctx) (selector : SelectorSelect)
    (subject : Key) (variants : Variants) (callingEntry : Entry) : Select :=
  { selector := selector, subject := subject, variants := variants,
    entries := (ctx.edges_entries_for_select callingEntry selector).filter
      (fun e => ctx.matches_subject_type e subject.type_id) }

/-- `Select::select_literal_single`: the candidate must satisfy the product
type, and when a variant value is required its `name` attribute must match
it. -/
def Select.select_literal_single (ctx : Ctx) (product : TypeConstraint)
    (candidate : Value) (variant_value : Option String) : Bool :=
  if ctx.externs.satisfied_by product candidate then
    match variant_value with
    | some vv => ctx.externs.project_str candidate "name" == vv
    | none => true
  else false

/-- `Select::select_literal`: is-a check on the candidate itself, then the
has-a check over its `products` children in order, first match wins. -/
def Select.select_literal (ctx : Ctx) (product : TypeConstraint)
    (candidate : Value) (variant_value : Option String) : Option Value :=
  if Select.select_literal_single ctx product candidate variant_value then
    some candidate
  else if ctx.externs.satisfied_by ctx.types.has_products candidate then
    (ctx.externs.project_multi candidate "products").find?
      (fun child => Select.select_literal_single ctx product child variant_value)
  else none

/-- The tail of `choose_task_result` once the loop over results has
finished: more than one match is a conflict `Throw`; otherwise `pop` the
single match or propagate the recorded maximum `Noop`. -/
def chooseFinalize (matchList : List Value) (max_noop : Noop) : Except Failure Value :=
  if matchList.length > 1 then
    .error (throwF "Conflicting values produced for subject and type.")
  else
    match matchList.getLast? with
    | some matched => .ok matched
    | none => .error (.Noop max_noop)

/-- The loop of `choose_task_result` with its two accumulators: the vector
of literal match values and the highest-severity `Noop` seen so far (initially
`NoTask`).  `Invalidated` and `Throw` return immediately. -/
def chooseAux (ctx : Ctx) (product : TypeConstraint) (variant_value : Option String) :
    List (Except Failure Value) → List Value → Noop → Except Failure Value
  | [], matchList, max_noop => chooseFinalize matchList max_noop
  | result :: rest, matchList, max_noop =>
    match result with
    | .ok value =>
      match Select.select_literal ctx product value variant_value with
      | some v => chooseAux ctx product variant_value rest (matchList ++ [v]) max_noop
      | none => chooseAux ctx product variant_value rest matchList max_noop
    | .error (.Noop noop) =>
      chooseAux ctx product variant_value rest matchList (noopMax max_noop noop)
    | .error .Invalidated => .error .Invalidated
    | .error (.Throw v tb) => .error (.Throw v tb)

/-- `Select::choose_task_result`. -/
def Select.choose_task_result (ctx : Ctx) (product : TypeConstraint)
    (results : List (Except Failure Value)) (variant_value : Option String) :
    Except Failure Value :=
  chooseAux ctx product variant_value results [] .NoTask

/-- `Select::gen_nodes`: a singleton registered for the product yields its
value as the single candidate; otherwise one candidate pipeline per entry
(abstracted by the oracle). -/
def Select.gen_nodes (ctx : Ctx) (oracle : Oracle) (s : Select) :
    List (Except Failure Value) :=
  match ctx.gen_singleton s.selector.product with
  | some v => [.ok v]
  | none => s.entries.map oracle

/-- The body of `Select::run` after the variant check: literal match on the
subject value, else dispatch the candidates and disambiguate. -/
def Select.runInner (ctx : Ctx) (oracle : Oracle) (s : Select)
    (variant_value : Option String) : Except Failure Value :=
  match Select.select_literal ctx s.selector.product
      (ctx.externs.val_for s.subject) variant_value with
  | some literal_value => .ok literal_value
  | none =>
    Select.choose_task_result ctx s.selector.product
      (Select.gen_nodes ctx oracle s) variant_value

/-- `Select::run`: the variant check (`Noop(NoVariant)` when the configured
`variant_key` is absent from `variants`), then `runInner`. -/
def Select.run (ctx : Ctx) (oracle : Oracle) (s : Select) : Except Failure Value :=
  match s.selector.variant_key with
  | some variant_key =>
    match variantsFind s.variants variant_key with
    | none => .error (.Noop .NoVariant)
    | some vv => Select.runInner ctx oracle s (some vv)
  | none => Select.runInner ctx oracle s none

/-- The variant value `Select::run` computes when it does not fail: `some vv`
when the selector has a variant key found in the variants, `none` when the
selector has no variant key; `Option.none` at the outer layer means the
variant check fails. -/
def variantLookup (s : Select) : Option (Option String) :=
  match s.selector.variant_key with
  | some variant_key => (variantsFind s.variants variant_key).map some
  | none => some none

/-- `future::join_all`, determinized to list order: all futures are joined
and the first error in the list is the join's error. -/
def joinAll : List (Except Failure α) → Except Failure (List α)
  | [] => .ok []
  | r :: rest =>
    match r with
    | .error f => .error f
    | .ok v => (joinAll rest).map (fun vs => v :: vs)

/-- The `Task` node: subject, product, variants, the `tasks::Task` and the
rule-graph entry it was scheduled for. -/
structure Task where
  subject : Key
  product : TypeConstraint
  variants : Variants
  task : TaskDef
  entry : Entry
deriving DecidableEq, Repr

/-- The `Select` built for one generator `Get` by `Task::gen_get`: entries
for `SelectKey::JustGet(product, subject type)` on the task entry's inner
edges, variants `Variants::default()` (empty). -/
def genGetSelect (ctx : Ctx) (taskEntry : Entry) (g : GetRequest) : Select :=
  Select.new_with_entries g.product g.subject []
    (ctx.edges_entries_for_get taskEntry g.product g.subject.type_id)

/-- `Task::gen_get`: one `Select` per requested `(product, subject)` pair,
each with `map_err(was_required)`, joined in request order. -/
def Task.gen_get (ctx : Ctx) (oracle : Oracle) (taskEntry : Entry)
    (gets : List GetRequest) : Except Failure (List Value) :=
  joinAll (gets.map (fun g =>
    (Select.run ctx oracle (genGetSelect ctx taskEntry g)).mapError was_required))

/-- The value a `future::loop_fn` iteration produces: continue with the next
input, or finish. -/
inductive LoopStep where
  | Continue : Value → LoopStep
  | Break : Value → LoopStep
deriving DecidableEq, Repr

/-- One iteration of the drive loop in `Task::generate`: send the input into
the generator and handle its response.  A `Get` resumes with the single
result, a `GetMulti` resumes with the host tuple of results in request
order, a `Break` finishes. -/
def Task.generateStep (ctx : Ctx) (oracle : Oracle) (taskEntry : Entry)
    (generator : Value) (input : Value) : Except Failure LoopStep :=
  match ctx.externs.generator_send generator input with
  | .error f => .error f
  | .ok (.Get g) =>
    (Task.gen_get ctx oracle taskEntry [g]).map (fun vs => .Continue vs.headI)
  | .ok (.GetMulti gets) =>
    (Task.gen_get ctx oracle taskEntry gets).map
      (fun vs => .Continue (ctx.externs.store_tuple vs))
  | .ok (.Break val) => .ok (.Break val)

/-- `Task::generate`, the drive loop, with explicit fuel: `none` models a
loop that has not terminated within the fuel. -/
def Task.generate (ctx : Ctx) (oracle : Oracle) (taskEntry : Entry)
    (generator : Value) : Nat → Value → Option (Except Failure Value)
  | 0, _ => none
  | fuel + 1, input =>
    match Task.generateStep ctx oracle taskEntry generator input with
    | .error f => some (.error f)
    | .ok (.Break v) => some (.ok v)
    | .ok (.Continue v) => Task.generate ctx oracle taskEntry generator fuel v

/-- `Task::run`: clause fan-out (one `Select::new_with_selector` per clause
selector, joined; note the clause selects carry no `was_required`
conversion), then the user function call, then the generator drive loop when
the returned value satisfies the `generator` type. -/
def Task.run (ctx : Ctx) (oracle : Oracle) (fuel : Nat) (t : Task) :
    Option (Except Failure Value) :=
  match joinAll (t.task.clause.map (fun s =>
      Select.run ctx oracle
        (Select.new_with_selector ctx s t.subject t.variants t.entry))) with
  | .error failure => some (.error failure)
  | .ok deps =>
    match ctx.externs.call (ctx.externs.val_for t.task.func) deps with
    | .error failure => some (.error failure)
    | .ok val =>
      if ctx.externs.satisfied_by ctx.types.generator val then
        Task.generate ctx oracle t.entry val fuel ctx.externs.eval_none
      else some (.ok val)

/-- A content digest: `(hex fingerprint, serialized bytes length)`. -/
structure Digest where
  fingerprint : String
  serialized_bytes_length : Nat
deriving DecidableEq, Repr

/-- `lift_digest`: project the fingerprint and length strings, parse the
length as a usize, decode the fingerprint from hex (the decoding itself,
from the `hashing` crate, stays abstract in `Externs.from_hex_string`; the
Debug text of the Rust parse error is elided from the length message). -/
def lift_digest (E : Externs) (digest : Value) : Except String Digest :=
  let fingerprint := E.project_str digest "fingerprint"
  let digest_length := E.project_str digest "serialized_bytes_length"
  match digest_length.toNat? with
  | none => .error "Length was not a usize"
  | some digest_length_as_usize =>
    match E.from_hex_string fingerprint with
    | .error e => .error e
    | .ok fp => .ok ⟨fp, digest_length_as_usize⟩

/-- Pair up the flat `env` list as the loop in `ExecuteProcess::lift` does:
`parts[2i]` is a key, `parts[2i + 1]` its value. -/
def toPairs : List String → List (String × String)
  | key :: value :: rest => (key, value) :: toPairs rest
  | _ => []

/-- `BTreeMap::insert` on the sorted association list representing the env
map: keep ascending key order, replace the value on an equal key. -/
def envInsert : List (String × String) → String × String → List (String × String)
  | [], kv => [kv]
  | p :: rest, kv =>
    if kv.1 < p.1 then kv :: p :: rest
    else if kv.1 = p.1 then kv :: rest
    else p :: envInsert rest kv

/-- The env `BTreeMap` built by `ExecuteProcess::lift`'s insertion loop. -/
def buildEnv (parts : List String) : List (String × String) :=
  (toPairs parts).foldl envInsert []

/-- The typed `process_execution::ExecuteProcessRequest`.  `env` is the
sorted mapping; `timeout_millis` is the millisecond-granularity duration. -/
structure ExecuteProcessRequest where
  argv : List String
  env : List (String × String)
  input_files : Digest
  output_files : List String
  output_directories : List String
  timeout_millis : Nat
  description : String
deriving DecidableEq, Repr

/-- The `ExecuteProcess` node wrapping a typed request. -/
structure ExecuteProcess where
  request : ExecuteProcessRequest
deriving DecidableEq, Repr

/-- `ExecuteProcess::lift`: parse the flat `env` list (odd length is an
error), build the sorted env map, lift the input-files digest, project the
output paths, parse the timeout, and assemble the typed request. -/
def ExecuteProcess.lift (E : Externs) (value : Value) : Except String ExecuteProcess :=
  let env_var_parts := E.project_multi_strs value "env"
  if env_var_parts.length % 2 ≠ 0 then
    .error "Error parsing env: odd number of parts"
  else
    match lift_digest E (E.project_ignoring_type value "input_files") with
    | .error e => .error ("Error parsing digest " ++ e)
    | .ok digest =>
      match E.parse_timeout (E.project_str value "timeout_seconds") with
      | none => .error "Timeout was not a float"
      | some timeout_millis =>
        .ok ⟨{ argv := E.project_multi_strs value "argv",
               env := buildEnv env_var_parts,
               input_files := digest,
               output_files := E.project_multi_strs value "output_files",
               output_directories := E.project_multi_strs value "output_directories",
               timeout_millis := timeout_millis,
               description := E.project_str value "description" }⟩

/-- An opaque `ProcessResult` (the runner's output). -/
structure ProcessResult where
  id : Nat
deriving DecidableEq, Repr

/-- `Select::execute_process`: select a `process_request` value for the
subject over the intrinsic entry's inner edges, lift it (a lifting error is
a hard `Throw`), then dispatch the typed request (the dispatch through
`context.get(ExecuteProcess)` is abstracted by `runner`). -/
def Select.execute_process (ctx : Ctx) (oracle : Oracle)
    (runner : ExecuteProcess → Except Failure ProcessResult)
    (s : Select) (entry : Entry) : Except Failure ProcessResult :=
  match Select.run ctx oracle
      (Select.new ctx ctx.types.process_request s.subject s.variants entry) with
  | .error f => .error f
  | .ok process_request_val =>
    match ExecuteProcess.lift ctx.externs process_request_val with
    | .error e => .error (throwF ("Error lifting ExecuteProcess: " ++ e))
    | .ok process_request => runner process_request

/-- The hard failures (`Throw` or `Invalidated`) among a result list: the
failures `choose_task_result` propagates immediately. -/
def hardFailure : Except Failure Value → Option Failure
  | .error (.Throw v tb) => some (.Throw v tb)
  | .error .Invalidated => some .Invalidated
  | _ => none

/-- The list of hard failures, in order, among candidate results. -/
def hards (results : List (Except Failure Value)) : List Failure :=
  results.filterMap hardFailure

/-- The successes among candidate results whose value passes the literal
product/variant check, in order: the values `choose_task_result` collects
into its match vector. -/
def matchesOf (ctx : Ctx) (product : TypeConstraint) (variant_value : Option String)
    (results : List (Except Failure Value)) : List Value :=
  results.filterMap (fun r =>
    match r with
    | .ok v => Select.select_literal ctx product v variant_value
    | .error _ => none)

/-- The `Noop` reasons among candidate results, in order. -/
def noopsOf (results : List (Except Failure Value)) : List Noop :=
  results.filterMap (fun r =>
    match r with
    | .error (.Noop n) => some n
    | _ => none)

/-- A host interop fixture for concrete evaluation: every value satisfies
every type constraint, projections are empty, `val_for` exposes the key id. -/
def externsTrue : Externs where
  satisfied_by := fun _ _ => true
  project_str := fun _ _ => ""
  project_multi := fun _ _ => []
  project_multi_strs := fun _ _ => []
  project_ignoring_type := fun _ _ => .host 0
  val_for := fun k => .host k.id
  call := fun _ _ => .ok (.host 0)
  generator_send := fun _ _ => .ok (.Break (.host 0))
  store_tuple := fun vs => .host vs.length
  eval_none := .host 0
  from_hex_string := fun s => .ok s
  parse_timeout := fun _ => some 0

/-- Type registry fixture. -/
def types0 : Types where
  has_products := ⟨100⟩
  generator := ⟨101⟩
  process_request := ⟨102⟩

/-- Context fixture over `externsTrue`: no singletons, no rule-graph edges. -/
def ctxTrue : Ctx where
  externs := externsTrue
  types := types0
  gen_singleton := fun _ => none
  edges_entries_for_select := fun _ _ => []
  edges_entries_for_get := fun _ _ _ => []
  matches_subject_type := fun _ _ => true

/-- A fixture where no value satisfies any type constraint. -/
def externsFalse : Externs :=
  { externsTrue with satisfied_by := fun _ _ => false }

/-- Context fixture over `externsFalse`. -/
def ctxFalse : Ctx := { ctxTrue with externs := externsFalse }

/-- Oracle fixture: every candidate pipeline succeeds with an opaque value. -/
def oracleOk : Oracle := fun _ => .ok (.host 0)

/-- Oracle fixture for the order-dependence counterexample: entry 1 fails
`Invalidated`, every other entry fails with a `Throw`. -/
def oracleCex : Oracle := fun e =>
  if e.id == 1 then .error .Invalidated else .error (throwF "boom")

/-- A Select whose two candidate entries fail `Invalidated` (entry 1) and
`Throw` (entry 2) under `oracleCex`. -/
def sCex : Select :=
  { subject := ⟨1, ⟨0⟩⟩, variants := [], selector := ⟨⟨0⟩, none⟩,
    entries := [⟨1⟩, ⟨2⟩] }

/-- The same Select with the candidate entries in the opposite order. -/
def sCexSwapped : Select := { sCex with entries := [⟨2⟩, ⟨1⟩] }

/-- A Task whose single clause selector requires the unconfigured variant
key `platform`. -/
def task0 : Task :=
  { subject := ⟨1, ⟨0⟩⟩, product := ⟨0⟩, variants := [],
    task := { func := ⟨2, ⟨0⟩⟩, clause := [⟨⟨0⟩, some "platform"⟩] },
    entry := ⟨0⟩ }

/-- A generator `Get` request fixture. -/
def get0 : GetRequest := ⟨⟨0⟩, ⟨5, ⟨0⟩⟩⟩

/-- The `GetMulti` request list fixture. -/
def gets0 : List GetRequest := [⟨⟨0⟩, ⟨5, ⟨0⟩⟩⟩, ⟨⟨0⟩, ⟨6, ⟨0⟩⟩⟩]

/-- Context fixture whose generator responds with `GetMulti gets0`. -/
def ctxGen : Ctx :=
  { ctxTrue with externs :=
    { externsTrue with generator_send := fun _ _ => .ok (.GetMulti gets0) } }

/-- A host fixture whose `env` projection has odd length. -/
def externsProc : Externs :=
  { externsTrue with
    project_multi_strs := fun _ f => if f == "env" then ["ODD"] else [] }

/-- Context fixture over `externsProc`. -/
def ctxProc : Ctx := { ctxTrue with externs := externsProc }

/-- A Select fixture for the process-execution intrinsic path. -/
def sProc : Select :=
  { subject := ⟨3, ⟨0⟩⟩, variants := [], selector := ⟨⟨7⟩, none⟩, entries := [] }

/-- Process runner fixture. -/
def runner0 : ExecuteProcess → Except Failure ProcessResult := fun _ => .ok ⟨0⟩

/-- A host fixture presenting the same env pairs in two orders on the two
subject values `host 1` and `host 2`. -/
def externsEnv : Externs :=
  { externsTrue with
    project_multi_strs := fun v f =>
      if f == "env" then
        match v with
        | .host 1 => ["b", "2", "a", "1"]
        | .host 2 => ["a", "1", "b", "2"]
        | _ => []
      else [] }

/-- A Select fixture whose subject literally satisfies the product. -/
def sLit : Select :=
  { subject := ⟨9, ⟨0⟩⟩, variants := [], selector := ⟨⟨0⟩, none⟩, entries := [⟨1⟩] }

/-- A Select fixture whose selector requires the unconfigured variant key
`platform`. -/
def sVar : Select :=
  { subject := ⟨1, ⟨0⟩⟩, variants := [], selector := ⟨⟨0⟩, some "platform"⟩,
    entries := [⟨1⟩] }

theorem chooseAux_hard (ctx : Ctx) (product : TypeConstraint) (vv : Option String)
    (f : Failure) :
    ∀ (results : List (Except Failure Value)) (matchList : List Value) (mn : Noop),
      hards results ≠ [] → (∀ g ∈ hards results, g = f) →
      chooseAux ctx product vv results matchList mn = .error f := by
  intro results
  induction results with
  | nil => intro matchList mn hne _; simp [hards] at hne
  | cons r rest ih =>
    intro matchList mn hne hall
    cases r with
    | ok v =>
      have hh : hards (Except.ok v :: rest) = hards rest := by
        simp [hards, List.filterMap_cons, hardFailure]
      rw [hh] at hne hall
      cases hsel : Select.select_literal ctx product v vv with
      | some m => rw [chooseAux, hsel]; exact ih _ _ hne hall
      | none => rw [chooseAux, hsel]; exact ih _ _ hne hall
    | error g =>
      cases g with
      | Noop n =>
        have hh : hards (Except.error (.Noop n) :: rest) = hards rest := by
          simp [hards, List.filterMap_cons, hardFailure]
        rw [hh] at hne hall
        rw [chooseAux]
        exact ih _ _ hne hall
      | Throw v tb =>
        have hmem : Failure.Throw v tb ∈ hards (Except.error (.Throw v tb) :: rest) := by
          simp [hards, List.filterMap_cons, hardFailure]
        rw [chooseAux, hall _ hmem]
      | Invalidated =>
        have hmem : Failure.Invalidated ∈ hards (Except.error .Invalidated :: rest) := by
          simp [hards, List.filterMap_cons, hardFailure]
        rw [chooseAux, hall _ hmem]

theorem chooseAux_soft (ctx : Ctx) (product : TypeConstraint) (vv : Option String) :
    ∀ (results : List (Except Failure Value)) (matchList : List Value) (mn : Noop),
      hards results = [] →
      chooseAux ctx product vv results matchList mn =
        chooseFinalize (matchList ++ matchesOf ctx product vv results)
          ((noopsOf results).foldl noopMax mn) := by
  intro results
  induction results with
  | nil => intro matchList mn _; simp [chooseAux, matchesOf, noopsOf]
  | cons r rest ih =>
    intro matchList mn h
    cases r with
    | ok v =>
      have hh : hards rest = [] := by
        simpa [hards, List.filterMap_cons, hardFailure] using h
      cases hsel : Select.select_literal ctx product v vv with
      | some m =>
        have h1 : matchesOf ctx product vv (Except.ok v :: rest)
            = m :: matchesOf ctx product vv rest := by
          simp [matchesOf, List.filterMap_cons, hsel]
        have h2 : noopsOf (Except.ok v :: rest) = noopsOf rest := by
          simp [noopsOf, List.filterMap_cons]
        rw [chooseAux, hsel]
        show chooseAux ctx product vv rest (matchList ++ [m]) mn = _
        rw [ih _ _ hh, h1, h2]
        simp [List.append_assoc]
      | none =>
        have h1 : matchesOf ctx product vv (Except.ok v :: rest)
            = matchesOf ctx product vv rest := by
          simp [matchesOf, List.filterMap_cons, hsel]
        have h2 : noopsOf (Except.ok v :: rest) = noopsOf rest := by
          simp [noopsOf, List.filterMap_cons]
        rw [chooseAux, hsel]
        show chooseAux ctx product vv rest matchList mn = _
        rw [ih _ _ hh, h1, h2]
    | error g =>
      cases g with
      | Noop n =>
        have hh : hards rest = [] := by
          simpa [hards, List.filterMap_cons, hardFailure] using h
        rw [chooseAux, ih _ _ hh]
        have h1 : matchesOf ctx product vv (Except.error (.Noop n) :: rest)
            = matchesOf ctx product vv rest := by
          simp [matchesOf, List.filterMap_cons]
        have h2 : noopsOf (Except.error (.Noop n) :: rest) = n :: noopsOf rest := by
          simp [noopsOf, List.filterMap_cons]
        rw [h1, h2, List.foldl_cons]
      | Throw v tb =>
        exfalso
        simp [hards, List.filterMap_cons, hardFailure] at h
      | Invalidated =>
        exfalso
        simp [hards, List.filterMap_cons, hardFailure] at h

theorem noopMax_rightComm :
    ∀ a b c : Noop, noopMax (noopMax a b) c = noopMax (noopMax a c) b := by
  intro a b c
  cases a <;> cases b <;> cases c <;> decide

theorem foldl_noopMax_perm {l1 l2 : List Noop} (p : l1.Perm l2) :
    ∀ a, l1.foldl noopMax a = l2.foldl noopMax a := by
  induction p with
  | nil => intro a; rfl
  | cons x _ ih => intro a; simp only [List.foldl_cons]; exact ih _
  | swap x y l => intro a; simp only [List.foldl_cons]; rw [noopMax_rightComm]
  | trans _ _ ih1 ih2 => intro a; rw [ih1, ih2]

theorem chooseFinalize_perm {m1 m2 : List Value} (p : m1.Perm m2) (mn : Noop) :
    chooseFinalize m1 mn = chooseFinalize m2 mn := by
  cases m1 with
  | nil =>
    have h2 : m2 = [] := p.symm.eq_nil
    rw [h2]
  | cons a t =>
    cases t with
    | nil =>
      have h2 : m2 = [a] := List.perm_singleton.mp p.symm
      rw [h2]
    | cons b t2 =>
      have hlen := p.length_eq
      have h1 : (a :: b :: t2).length > 1 := by simp
      have h2 : m2.length > 1 := by rw [← hlen]; simp
      simp [chooseFinalize, h1, h2]

theorem choose_task_result_perm (ctx : Ctx) (product : TypeConstraint)
    (vv : Option String) {r1 r2 : List (Except Failure Value)} (hperm : r1.Perm r2)
    (hhard : ∀ f1 ∈ hards r1, ∀ f2 ∈ hards r1, f1 = f2) :
    Select.choose_task_result ctx product r1 vv
      = Select.choose_task_result ctx product r2 vv := by
  have hp : (hards r1).Perm (hards r2) := hperm.filterMap _
  cases hh : hards r1 with
  | nil =>
    have hh2 : hards r2 = [] := by
      rw [hh] at hp; exact hp.symm.eq_nil
    simp only [Select.choose_task_result]
    rw [chooseAux_soft ctx product vv r1 [] .NoTask hh,
        chooseAux_soft ctx product vv r2 [] .NoTask hh2]
    have hm : (matchesOf ctx product vv r1).Perm (matchesOf ctx product vv r2) :=
      hperm.filterMap _
    have hn : (noopsOf r1).Perm (noopsOf r2) := hperm.filterMap _
    rw [foldl_noopMax_perm hn]
    simpa using chooseFinalize_perm hm _
  | cons f hs =>
    have hf1 : f ∈ hards r1 := by rw [hh]; exact List.mem_cons_self f hs
    have hall1 : ∀ g ∈ hards r1, g = f := fun g hg => hhard g hg f hf1
    have hall2 : ∀ g ∈ hards r2, g = f := by
      intro g hg
      exact hhard g (hp.mem_iff.mpr hg) f hf1
    have hne1 : hards r1 ≠ [] := by rw [hh]; simp
    have hne2 : hards r2 ≠ [] := by
      intro hnil
      rw [hnil] at hp
      have h0 := hp.eq_nil
      rw [hh] at h0
      exact absurd h0 (by simp)
    simp only [Select.choose_task_result]
    rw [chooseAux_hard ctx product vv f r1 [] .NoTask hne1 hall1,
        chooseAux_hard ctx product vv f r2 [] .NoTask hne2 hall2]

theorem runInner_entries_perm (ctx : Ctx) (oracle : Oracle) (sub : Key)
    (var : Variants) (sel : SelectorSelect) (ent1 ent2 : List Entry)
    (hperm : ent1.Perm ent2)
    (hhard : ∀ f1 ∈ hards (Select.gen_nodes ctx oracle ⟨sub, var, sel, ent1⟩),
             ∀ f2 ∈ hards (Select.gen_nodes ctx oracle ⟨sub, var, sel, ent1⟩), f1 = f2)
    (vv : Option String) :
    Select.runInner ctx oracle ⟨sub, var, sel, ent1⟩ vv
      = Select.runInner ctx oracle ⟨sub, var, sel, ent2⟩ vv := by
  have hgen : (Select.gen_nodes ctx oracle ⟨sub, var, sel, ent1⟩).Perm
      (Select.gen_nodes ctx oracle ⟨sub, var, sel, ent2⟩) := by
    simp only [Select.gen_nodes]
    cases hsing : ctx.gen_singleton sel.product with
    | some v => exact List.Perm.refl _
    | none => exact hperm.map oracle
  simp only [Select.runInner]
  cases hlit : Select.select_literal ctx sel.product (ctx.externs.val_for sub) vv with
  | some v => rfl
  | none => exact choose_task_result_perm ctx sel.product vv hgen hhard

/-- C2 (corrected): permuting the candidate entries of a `Select` does not
change its outcome, provided all hard failures (`Throw` or `Invalidated`)
among the candidate results are equal to one another.  The restriction is
forced: with both a `Throw` and an `Invalidated` among the candidates (or two
different `Throw`s), `choose_task_result` returns whichever arrives first, so
the outcome is order-dependent there. -/
theorem c2_select_outcome_entry_order_invariant (ctx : Ctx) (oracle : Oracle)
    (s1 s2 : Select)
    (hsub : s1.subject = s2.subject) (hvar : s1.variants = s2.variants)
    (hsel : s1.selector = s2.selector) (hperm : s1.entries.Perm s2.entries)
    (hhard : ∀ f1 ∈ hards (Select.gen_nodes ctx oracle s1),
             ∀ f2 ∈ hards (Select.gen_nodes ctx oracle s1), f1 = f2) :
    Select.run ctx oracle s1 = Select.run ctx oracle s2 := by
  obtain ⟨sub1, var1, sel1, ent1⟩ := s1
  obtain ⟨sub2, var2, sel2, ent2⟩ := s2
  simp only at hsub hvar hsel hperm hhard
  subst hsub
  subst hvar
  subst hsel
  cases hk : sel1.variant_key with
  | some vk =>
    cases hf : variantsFind var1 vk with
    | none => simp [Select.run, hk, hf]
    | some vv =>
      simp only [Select.run, hk, hf]
      exact runInner_entries_perm ctx oracle sub1 var1 sel1 ent1 ent2 hperm hhard (some vv)
  | none =>
    simp only [Select.run, hk]
    exact runInner_entries_perm ctx oracle sub1 var1 sel1 ent1 ent2 hperm hhard none

/-- C2 counterexample: under `oracleCex`, candidate entry 1 fails
`Invalidated` and entry 2 fails with a `Throw`; permuting the two entries
changes the outcome of the `Select` from `Invalidated` to the `Throw`, so
the claim as stated (order-independence for every `Select`, including when
distinct candidates fail with `Throw` and `Invalidated`) is false. -/
theorem c2_counterexample :
    Select.run ctxFalse oracleCex sCex = .error .Invalidated
    ∧ Select.run ctxFalse oracleCex sCexSwapped = .error (throwF "boom")
    ∧ sCex.entries.Perm sCexSwapped.entries
    ∧ Select.run ctxFalse oracleCex sCex ≠ Select.run ctxFalse oracleCex sCexSwapped := by
  refine ⟨by decide, by decide, by decide, by decide⟩

/-- C2 witness: the amended theorem applied at a concrete `Select` whose two
candidates both fail with `Noop`s. -/
theorem c2_witness :
    Select.run ctxFalse (fun e => .error (.Noop (if e.id == 1 then .NoTask else .Cycle))) sCex
      = Select.run ctxFalse (fun e => .error (.Noop (if e.id == 1 then .NoTask else .Cycle)))
          sCexSwapped :=
  c2_select_outcome_entry_order_invariant ctxFalse
    (fun e => .error (.Noop (if e.id == 1 then .NoTask else .Cycle))) sCex sCexSwapped
    rfl rfl rfl (by decide) (by decide)

theorem noopMax_cases : ∀ a b : Noop, noopMax a b = a ∨ noopMax a b = b := by
  intro a b; cases a <;> cases b <;> decide

theorem foldl_noopMax_mem : ∀ (l : List Noop) (a : Noop),
    l.foldl noopMax a = a ∨ l.foldl noopMax a ∈ l := by
  intro l
  induction l with
  | nil => intro a; exact Or.inl rfl
  | cons n rest ih =>
    intro a
    rw [List.foldl_cons]
    rcases ih (noopMax a n) with h | h
    · rw [h]
      rcases noopMax_cases a n with h2 | h2
      · exact Or.inl h2
      · exact Or.inr (by rw [h2]; exact List.mem_cons_self n rest)
    · exact Or.inr (List.mem_cons_of_mem n h)

theorem noopMax_le :
    ∀ a b : Noop, a.rank ≤ (noopMax a b).rank ∧ b.rank ≤ (noopMax a b).rank := by
  intro a b; cases a <;> cases b <;> decide

theorem foldl_noopMax_le : ∀ (l : List Noop) (a : Noop),
    a.rank ≤ (l.foldl noopMax a).rank ∧ ∀ x ∈ l, x.rank ≤ (l.foldl noopMax a).rank := by
  intro l
  induction l with
  | nil => intro a; exact ⟨le_refl _, by simp⟩
  | cons n rest ih =>
    intro a
    rw [List.foldl_cons]
    obtain ⟨h1, h2⟩ := ih (noopMax a n)
    refine ⟨le_trans (noopMax_le a n).1 h1, ?_⟩
    intro x hx
    rcases List.mem_cons.mp hx with he | hm
    · rw [he]; exact le_trans (noopMax_le a n).2 h1
    · exact h2 x hm

theorem hards_noops (noops : List Noop) :
    hards (noops.map (fun n => .error (.Noop n))) = [] := by
  induction noops with
  | nil => rfl
  | cons n rest ih => simpa [hards, List.filterMap_cons, hardFailure] using ih

theorem matchesOf_noops (ctx : Ctx) (product : TypeConstraint) (vv : Option String)
    (noops : List Noop) :
    matchesOf ctx product vv (noops.map (fun n => .error (.Noop n))) = [] := by
  induction noops with
  | nil => rfl
  | cons n rest ih => simpa [matchesOf, List.filterMap_cons] using ih

theorem noopsOf_noops (noops : List Noop) :
    noopsOf (noops.map (fun n => .error (.Noop n))) = noops := by
  induction noops with
  | nil => rfl
  | cons n rest ih => simpa [noopsOf, List.filterMap_cons] using ih

/-- C3 (confirmed): when every candidate of a `Select` fails with a `Noop`
(no `Throw`, no `Invalidated`), `choose_task_result` returns `Noop(m)` where
`m` is the maximum of the candidates' reasons under
`NoTask < NoVariant < Cycle`: the code folds `noopMax` starting from the
bottom reason `NoTask`, and the fold result is a member of the reasons list
that bounds every other member. -/
theorem c3_noop_severity_max (ctx : Ctx) (product : TypeConstraint)
    (vv : Option String) (noops : List Noop) (hne : noops ≠ []) :
    Select.choose_task_result ctx product
        (noops.map (fun n => .error (.Noop n))) vv
      = .error (.Noop (noops.foldl noopMax .NoTask))
    ∧ noops.foldl noopMax .NoTask ∈ noops
    ∧ ∀ x ∈ noops, x.rank ≤ (noops.foldl noopMax .NoTask).rank := by
  refine ⟨?_, ?_, (foldl_noopMax_le noops .NoTask).2⟩
  · simp only [Select.choose_task_result]
    rw [chooseAux_soft ctx product vv _ [] .NoTask (hards_noops noops),
        matchesOf_noops ctx product vv noops, noopsOf_noops noops]
    rfl
  · cases noops with
    | nil => exact absurd rfl hne
    | cons n rest =>
      rw [List.foldl_cons]
      have hbase : noopMax .NoTask n = n := by cases n <;> decide
      rw [hbase]
      rcases foldl_noopMax_mem rest n with h | h
      · rw [h]; exact List.mem_cons_self n rest
      · exact List.mem_cons_of_mem n h

/-- C3 witness: reasons `[NoVariant, Cycle, NoTask]` produce `Noop(Cycle)`. -/
theorem c3_witness :
    Select.choose_task_result ctxTrue ⟨0⟩
        (([Noop.NoVariant, .Cycle, .NoTask]).map (fun n => .error (.Noop n))) none
      = .error (.Noop .Cycle) :=
  ((c3_noop_severity_max ctxTrue ⟨0⟩ none [.NoVariant, .Cycle, .NoTask]
      (by simp)).1).trans (by decide)

/-- C4 (corrected): two or more successes passing the literal product /
variant check make the `Select` fail with the conflict `Throw`, provided no
candidate fails with `Throw` or `Invalidated`.  The proviso is forced:
a sibling `Throw` or `Invalidated` is returned before the match count is
inspected. -/
theorem c4_conflict_throw (ctx : Ctx) (product : TypeConstraint)
    (vv : Option String) (results : List (Except Failure Value))
    (hsoft : hards results = [])
    (htwo : 2 ≤ (matchesOf ctx product vv results).length) :
    Select.choose_task_result ctx product results vv
      = .error (throwF "Conflicting values produced for subject and type.") := by
  simp only [Select.choose_task_result]
  rw [chooseAux_soft ctx product vv results [] .NoTask hsoft]
  simp only [List.nil_append]
  have h1 : (matchesOf ctx product vv results).length > 1 := htwo
  simp [chooseFinalize, h1]

/-- C4 counterexample: two successes that both satisfy the product, next to
an `Invalidated` sibling, produce `Invalidated`, not the conflict `Throw`,
so the claim as stated (any two satisfying successes yield the conflict
`Throw`) is false. -/
theorem c4_counterexample :
    Select.select_literal ctxTrue ⟨0⟩ (.host 1) none = some (.host 1)
    ∧ Select.select_literal ctxTrue ⟨0⟩ (.host 2) none = some (.host 2)
    ∧ Select.choose_task_result ctxTrue ⟨0⟩
        [.ok (.host 1), .ok (.host 2), .error .Invalidated] none = .error .Invalidated
    ∧ Select.choose_task_result ctxTrue ⟨0⟩
        [.ok (.host 1), .ok (.host 2), .error .Invalidated] none
      ≠ .error (throwF "Conflicting values produced for subject and type.") := by
  refine ⟨by decide, by decide, by decide, by decide⟩

/-- C4 witness: two satisfying successes and no hard failure produce the
conflict `Throw`. -/
theorem c4_witness :
    Select.choose_task_result ctxTrue ⟨0⟩ [.ok (.host 1), .ok (.host 2)] none
      = .error (throwF "Conflicting values produced for subject and type.") :=
  c4_conflict_throw ctxTrue ⟨0⟩ none [.ok (.host 1), .ok (.host 2)]
    (by decide) (by decide)

theorem chooseAux_skip (ctx : Ctx) (product : TypeConstraint) (vv : Option String)
    (v : Value) (hnone : Select.select_literal ctx product v vv = none) :
    ∀ (l1 l2 : List (Except Failure Value)) (matchList : List Value) (mn : Noop),
      chooseAux ctx product vv (l1 ++ .ok v :: l2) matchList mn
        = chooseAux ctx product vv (l1 ++ l2) matchList mn := by
  intro l1
  induction l1 with
  | nil =>
    intro l2 matchList mn
    simp only [List.nil_append, chooseAux, hnone]
  | cons r rest ih =>
    intro l2 matchList mn
    simp only [List.cons_append]
    cases r with
    | ok w =>
      cases hsel : Select.select_literal ctx product w vv with
      | some m => simp only [chooseAux, hsel]; exact ih l2 (matchList ++ [m]) mn
      | none => simp only [chooseAux, hsel]; exact ih l2 matchList mn
    | error g =>
      cases g with
      | Noop n => simp only [chooseAux]; exact ih l2 matchList (noopMax mn n)
      | Throw w tb => simp only [chooseAux]
      | Invalidated => simp only [chooseAux]

/-- C9 (confirmed): a successful candidate whose value does not pass the
literal product/variant check is silently discarded by the disambiguation:
removing it from the result list does not change the outcome (so it counts
neither as a success nor as any failure, and it does not raise the recorded
maximum `Noop`), and a `Select` whose only candidate returns such a value
fails with `Noop(NoTask)`. -/
theorem c9_nonmatching_success_discarded (ctx : Ctx) (product : TypeConstraint)
    (vv : Option String) (v : Value)
    (hnone : Select.select_literal ctx product v vv = none) :
    (∀ l1 l2, Select.choose_task_result ctx product (l1 ++ .ok v :: l2) vv
        = Select.choose_task_result ctx product (l1 ++ l2) vv)
    ∧ Select.choose_task_result ctx product [.ok v] vv = .error (.Noop .NoTask) := by
  constructor
  · intro l1 l2
    simp only [Select.choose_task_result]
    exact chooseAux_skip ctx product vv v hnone l1 l2 [] .NoTask
  · simp only [Select.choose_task_result]
    rw [show ([.ok v] : List (Except Failure Value)) = [] ++ .ok v :: [] from rfl,
        chooseAux_skip ctx product vv v hnone [] [] [] .NoTask]
    rfl

/-- C9 witness: under `ctxFalse` nothing satisfies the product, so a lone
non-matching success yields `Noop(NoTask)`, and inserting it next to a
`Noop(NoVariant)` candidate changes nothing. -/
theorem c9_witness :
    Select.choose_task_result ctxFalse ⟨0⟩
        [.error (.Noop .NoVariant), .ok (.host 3)] none
      = Select.choose_task_result ctxFalse ⟨0⟩ [.error (.Noop .NoVariant)] none
    ∧ Select.choose_task_result ctxFalse ⟨0⟩ [.ok (.host 3)] none
      = .error (.Noop .NoTask) := by
  have h := c9_nonmatching_success_discarded ctxFalse ⟨0⟩ none (.host 3) rfl
  exact ⟨by simpa using h.1 [.error (.Noop .NoVariant)] [], h.2⟩

theorem find?_first {α : Type} {p : α → Bool} :
    ∀ (pre : List α) (c : α) (post : List α),
      (∀ x ∈ pre, p x = false) → p c = true →
      (pre ++ c :: post).find? p = some c := by
  intro pre
  induction pre with
  | nil =>
    intro c post _ hc
    simpa using List.find?_cons_of_pos post hc
  | cons a t ih =>
    intro c post hpre hc
    have ha : p a = false := hpre a (by simp)
    rw [List.cons_append, List.find?_cons_of_neg _ (by simp [ha])]
    exact ih c post (fun x hx => hpre x (by simp [hx])) hc

theorem run_of_variantLookup (ctx : Ctx) (oracle : Oracle) (s : Select)
    (vv : Option String) (hv : variantLookup s = some vv) :
    Select.run ctx oracle s = Select.runInner ctx oracle s vv := by
  unfold variantLookup at hv
  cases hk : s.selector.variant_key with
  | some vk =>
    simp only [hk] at hv
    cases hf : variantsFind s.variants vk with
    | none => rw [hf] at hv; simp at hv
    | some x =>
      rw [hf] at hv
      obtain rfl : some x = vv := by simpa using hv
      simp [Select.run, hk, hf]
  | none =>
    simp only [hk] at hv
    obtain rfl : (none : Option String) = vv := by simpa using hv
    simp [Select.run, hk]

/-- C5 (confirmed): when the subject value itself passes the literal
product/variant check, `Select::run` returns it verbatim and the result does
not depend on the candidate oracle (no candidate `Task` or intrinsic node is
consulted); when the subject fails that check but satisfies `has_products`,
the first `products` child (in order) that passes the check is returned, the
earlier children having failed it — again independently of the oracle. -/
theorem c5_literal_short_circuit (ctx : Ctx) (s : Select) (vv : Option String)
    (hv : variantLookup s = some vv) :
    (∀ oracle : Oracle,
      Select.select_literal_single ctx s.selector.product
          (ctx.externs.val_for s.subject) vv = true →
      Select.run ctx oracle s = .ok (ctx.externs.val_for s.subject))
    ∧ (∀ (oracle : Oracle) (pre : List Value) (child : Value) (post : List Value),
      Select.select_literal_single ctx s.selector.product
          (ctx.externs.val_for s.subject) vv = false →
      ctx.externs.satisfied_by ctx.types.has_products
          (ctx.externs.val_for s.subject) = true →
      ctx.externs.project_multi (ctx.externs.val_for s.subject) "products"
          = pre ++ child :: post →
      (∀ c ∈ pre, Select.select_literal_single ctx s.selector.product c vv = false) →
      Select.select_literal_single ctx s.selector.product child vv = true →
      Select.run ctx oracle s = .ok child) := by
  constructor
  · intro oracle hsingle
    rw [run_of_variantLookup ctx oracle s vv hv]
    simp [Select.runInner, Select.select_literal, hsingle]
  · intro oracle pre child post hsingle hhas hproj hpre hchild
    rw [run_of_variantLookup ctx oracle s vv hv]
    have hfind : (ctx.externs.project_multi (ctx.externs.val_for s.subject)
        "products").find?
          (fun c => Select.select_literal_single ctx s.selector.product c vv)
        = some child := by
      rw [hproj]
      exact find?_first pre child post hpre hchild
    simp [Select.runInner, Select.select_literal, hsingle, hhas, hfind]

/-- C5 witness: under `ctxTrue`, the subject of `sLit` satisfies the product
and is returned verbatim with the literal value `host 9`. -/
theorem c5_witness : Select.run ctxTrue oracleOk sLit = .ok (.host 9) :=
  (c5_literal_short_circuit ctxTrue sLit none rfl).1 oracleOk rfl

/-- C6 (confirmed): a `Select` whose selector carries a variant key absent
from the variants fails with `Noop(NoVariant)` for every context and every
candidate oracle — in particular the outcome is independent of the literal
check (arbitrary `satisfied_by`) and of every candidate pipeline, which is
the observable content of failing before the literal-match step and before
any rule entry is dispatched. -/
theorem c6_missing_variant_noop (s : Select) (vk : String)
    (hk : s.selector.variant_key = some vk)
    (hfind : variantsFind s.variants vk = none) :
    ∀ (ctx : Ctx) (oracle : Oracle),
      Select.run ctx oracle s = .error (.Noop .NoVariant) := by
  intro ctx oracle
  simp [Select.run, hk, hfind]

/-- C6 witness: `sVar` requires the unconfigured variant key `platform` and
fails `Noop(NoVariant)` even though under `ctxTrue` its subject satisfies
the product and its candidate entry would succeed. -/
theorem c6_witness : Select.run ctxTrue oracleOk sVar = .error (.Noop .NoVariant) :=
  c6_missing_variant_noop sVar "platform" rfl rfl ctxTrue oracleOk

/-- C1 (corrected): a `Select` issued from a generator `Get`/`GetMulti` that
fails with `Noop` is observed by the task as a `Throw` naming the missing
dependency, via `map_err(was_required)` in `gen_get` — here for the first
failing pair, the earlier pairs having succeeded.  The clause half of the
original claim is refuted by `c1_counterexample`: clause selects in
`Task::run` carry no `was_required` conversion, so a clause `Noop` is
observed as that `Noop`. -/
theorem c1_generator_noop_is_thrown (ctx : Ctx) (oracle : Oracle)
    (taskEntry : Entry) (gets1 : List GetRequest) (g : GetRequest)
    (gets2 : List GetRequest) (n : Noop)
    (hok : ∀ x ∈ gets1, ∃ v,
      Select.run ctx oracle (genGetSelect ctx taskEntry x) = .ok v)
    (hnoop : Select.run ctx oracle (genGetSelect ctx taskEntry g)
      = .error (.Noop n)) :
    Task.gen_get ctx oracle taskEntry (gets1 ++ g :: gets2)
      = .error (throwF ("No source of required dependency: " ++ noopDebug n)) := by
  induction gets1 with
  | nil =>
    simp [Task.gen_get, hnoop, Except.mapError, was_required, joinAll]
  | cons x t ih =>
    obtain ⟨v, hv⟩ := hok x (by simp)
    have ht : ∀ y ∈ t, ∃ w,
        Select.run ctx oracle (genGetSelect ctx taskEntry y) = .ok w :=
      fun y hy => hok y (by simp [hy])
    have hrec := ih ht
    simp only [Task.gen_get, Except.mapError] at hrec ⊢
    rw [List.cons_append]
    simp only [List.map_cons]
    rw [hv]
    simp only [joinAll]
    rw [hrec]
    simp [Except.map]

/-- C1 counterexample: a task whose only clause selector requires the
unconfigured variant key `platform` observes the clause Select's
`Noop(NoVariant)` as that same `Noop`, not as any `Throw` — so the claim's
clause half is false as stated. -/
theorem c1_counterexample :
    Task.run ctxTrue oracleOk 1 task0 = some (.error (.Noop .NoVariant))
    ∧ (some (.error (.Noop .NoVariant)) : Option (Except Failure Value))
      ≠ some (.error (throwF "No source of required dependency: NoVariant")) := by
  refine ⟨by decide, by decide⟩

/-- C1 witness: under `ctxFalse`, the Select for `get0` fails `Noop(NoTask)`
and `gen_get` reports the converted `Throw`. -/
theorem c1_witness :
    Task.gen_get ctxFalse oracleOk ⟨0⟩ ([] ++ get0 :: [])
      = .error (throwF ("No source of required dependency: " ++ noopDebug .NoTask)) :=
  c1_generator_noop_is_thrown ctxFalse oracleOk ⟨0⟩ [] get0 [] .NoTask
    (by simp) (by decide)

theorem joinAll_ok {α : Type} :
    ∀ (l : List (Except Failure α)) (vs : List α), joinAll l = .ok vs →
      vs.length = l.length
      ∧ ∀ (i : Nat) (h1 : i < l.length) (h2 : i < vs.length),
          l.get ⟨i, h1⟩ = .ok (vs.get ⟨i, h2⟩) := by
  intro l
  induction l with
  | nil =>
    intro vs h
    simp only [joinAll] at h
    obtain rfl : ([] : List α) = vs := by injection h
    exact ⟨rfl, fun i h1 _ => absurd h1 (by simp)⟩
  | cons r rest ih =>
    intro vs h
    cases r with
    | error f => simp [joinAll] at h
    | ok v =>
      simp only [joinAll] at h
      cases hrest : joinAll rest with
      | error f => rw [hrest] at h; simp [Except.map] at h
      | ok ws =>
        rw [hrest] at h
        simp only [Except.map] at h
        obtain rfl : v :: ws = vs := by injection h
        obtain ⟨hlen, hidx⟩ := ih ws hrest
        refine ⟨by simp [hlen], ?_⟩
        intro i h1 h2
        cases i with
        | zero => rfl
        | succ j =>
          have hj1 : j < rest.length := by simpa using h1
          have hj2 : j < ws.length := by simpa using h2
          exact hidx j hj1 hj2

/-- C10 (confirmed): when the generator answers `GetMulti gets` and every
per-pair `Select` succeeds, the drive loop resumes the generator with the
host tuple of exactly the per-pair results in request order, and the
`Select` run for the i-th pair is the one constructed with empty variants
over the `JustGet` entries for that pair. -/
theorem c10_getmulti_order_and_empty_variants (ctx : Ctx) (oracle : Oracle)
    (taskEntry : Entry) (generator input : Value) (gets : List GetRequest)
    (vs : List Value)
    (hsend : ctx.externs.generator_send generator input = .ok (.GetMulti gets))
    (hok : Task.gen_get ctx oracle taskEntry gets = .ok vs) :
    Task.generateStep ctx oracle taskEntry generator input
      = .ok (.Continue (ctx.externs.store_tuple vs))
    ∧ vs.length = gets.length
    ∧ ∀ (i : Nat) (h1 : i < gets.length) (h2 : i < vs.length),
        (Select.run ctx oracle (Select.new_with_entries (gets.get ⟨i, h1⟩).product
            (gets.get ⟨i, h1⟩).subject []
            (ctx.edges_entries_for_get taskEntry (gets.get ⟨i, h1⟩).product
              (gets.get ⟨i, h1⟩).subject.type_id))).mapError was_required
          = .ok (vs.get ⟨i, h2⟩) := by
  have hjoin : joinAll (gets.map (fun g =>
      (Select.run ctx oracle (genGetSelect ctx taskEntry g)).mapError was_required))
      = .ok vs := hok
  obtain ⟨hlen, hidx⟩ := joinAll_ok _ vs hjoin
  refine ⟨?_, by simpa using hlen, ?_⟩
  · simp [Task.generateStep, hsend, hok, Except.map]
  · intro i h1 h2
    have hm : i < (gets.map (fun g =>
        (Select.run ctx oracle (genGetSelect ctx taskEntry g)).mapError
          was_required)).length := by simpa using h1
    have h := hidx i hm h2
    simpa [List.get_eq_getElem, List.getElem_map, genGetSelect] using h

/-- C10 witness: with `ctxGen` the generator requests `gets0` and the loop
resumes with the tuple of the two subjects' literal values in order. -/
theorem c10_witness :
    Task.generateStep ctxGen oracleOk ⟨0⟩ (.host 42) (.host 0)
      = .ok (.Continue (ctxGen.externs.store_tuple [.host 5, .host 6])) :=
  (c10_getmulti_order_and_empty_variants ctxGen oracleOk ⟨0⟩ (.host 42) (.host 0)
    gets0 [.host 5, .host 6] rfl (by decide)).1

/-- C7 (confirmed): when the `process_request` Select succeeds with a value
whose flat `env` projection has odd length, `ExecuteProcess::lift` fails
with the odd-number-of-parts error and the ProcessExecution intrinsic path
surfaces it as a hard `Throw` — not as a `Noop`. -/
theorem c7_odd_env_throw (ctx : Ctx) (oracle : Oracle)
    (runner : ExecuteProcess → Except Failure ProcessResult)
    (s : Select) (entry : Entry) (v : Value)
    (hsel : Select.run ctx oracle
      (Select.new ctx ctx.types.process_request s.subject s.variants entry) = .ok v)
    (hodd : (ctx.externs.project_multi_strs v "env").length % 2 = 1) :
    Select.execute_process ctx oracle runner s entry
      = .error (throwF ("Error lifting ExecuteProcess: "
          ++ "Error parsing env: odd number of parts")) := by
  have hlift : ExecuteProcess.lift ctx.externs v
      = .error "Error parsing env: odd number of parts" := by
    have h : (ctx.externs.project_multi_strs v "env").length % 2 ≠ 0 := by omega
    simp [ExecuteProcess.lift, h]
  simp [Select.execute_process, hsel, hlift]

/-- C7 witness: under `ctxProc` the inner select literal-matches the subject
`host 3`, whose env projection is a one-element flat list. -/
theorem c7_witness :
    Select.execute_process ctxProc oracleOk runner0 sProc ⟨0⟩
      = .error (throwF ("Error lifting ExecuteProcess: "
          ++ "Error parsing env: odd number of parts")) :=
  c7_odd_env_throw ctxProc oracleOk runner0 sProc ⟨0⟩ (.host 3) (by decide) (by decide)

/-- Strict key order on env entries: the ascending `BTreeMap` key order. -/
def envLt (a b : String × String) : Prop := a.1 < b.1

instance : IsAntisymm (String × String) envLt where
  antisymm _ _ h1 h2 := absurd h2 (lt_asymm h1)

theorem mem_envInsert (kv x : String × String) : ∀ (m : List (String × String)),
    x ∈ envInsert m kv → x = kv ∨ x ∈ m := by
  intro m
  induction m with
  | nil => intro h; simp [envInsert] at h; exact Or.inl h
  | cons p rest ih =>
    intro h
    simp only [envInsert] at h
    split_ifs at h with h1 h2
    · exact List.mem_cons.mp h
    · rcases List.mem_cons.mp h with he | hm
      · exact Or.inl he
      · exact Or.inr (List.mem_cons_of_mem _ hm)
    · rcases List.mem_cons.mp h with he | hm
      · exact Or.inr (he ▸ List.mem_cons_self _ _)
      · rcases ih hm with h3 | h4
        · exact Or.inl h3
        · exact Or.inr (List.mem_cons_of_mem _ h4)

theorem envInsert_sorted (kv : String × String) : ∀ (m : List (String × String)),
    m.Sorted envLt → (envInsert m kv).Sorted envLt := by
  intro m
  induction m with
  | nil => intro _; simp [envInsert, List.sorted_singleton]
  | cons p rest ih =>
    intro hs
    rw [List.sorted_cons] at hs
    obtain ⟨hp, hrest⟩ := hs
    simp only [envInsert]
    split_ifs with h1 h2
    · rw [List.sorted_cons]
      refine ⟨?_, by rw [List.sorted_cons]; exact ⟨hp, hrest⟩⟩
      intro b hb
      rcases List.mem_cons.mp hb with he | hm
      · rw [he]; exact h1
      · exact lt_trans h1 (hp b hm)
    · rw [List.sorted_cons]
      refine ⟨fun b hb => ?_, hrest⟩
      show kv.1 < b.1
      rw [h2]
      exact hp b hb
    · rw [List.sorted_cons]
      refine ⟨fun b hb => ?_, ih hrest⟩
      rcases mem_envInsert kv b rest hb with he | hm
      · rw [he]
        exact lt_of_le_of_ne (not_lt.mp h1) (fun he2 => h2 he2.symm)
      · exact hp b hm

theorem envInsert_perm (kv : String × String) : ∀ (m : List (String × String)),
    kv.1 ∉ m.map Prod.fst → (envInsert m kv).Perm (kv :: m) := by
  intro m
  induction m with
  | nil => intro _; simp [envInsert]
  | cons p rest ih =>
    intro hk
    simp only [List.map_cons, List.mem_cons] at hk
    push_neg at hk
    obtain ⟨hne, hnm⟩ := hk
    simp only [envInsert]
    split_ifs with h1
    · exact List.Perm.refl _
    · exact ((ih hnm).cons p).trans (List.Perm.swap kv p rest)

theorem foldl_envInsert_sorted_perm : ∀ (ps m : List (String × String)),
    m.Sorted envLt → (ps.map Prod.fst).Nodup →
    (∀ k ∈ ps.map Prod.fst, k ∉ m.map Prod.fst) →
    (ps.foldl envInsert m).Sorted envLt ∧ (ps.foldl envInsert m).Perm (m ++ ps) := by
  intro ps
  induction ps with
  | nil => intro m hs _ _; exact ⟨hs, by simp⟩
  | cons kv rest ih =>
    intro m hs hnd hdisj
    simp only [List.foldl_cons]
    have hkm : kv.1 ∉ m.map Prod.fst := hdisj kv.1 (by simp)
    have hm2 : (envInsert m kv).Sorted envLt := envInsert_sorted kv m hs
    have hperm2 : (envInsert m kv).Perm (kv :: m) := envInsert_perm kv m hkm
    have hnd0 : ¬ kv.1 ∈ rest.map Prod.fst ∧ (rest.map Prod.fst).Nodup := by
      have := hnd
      rw [List.map_cons, List.nodup_cons] at this
      exact this
    have hdisj2 : ∀ k ∈ rest.map Prod.fst, k ∉ (envInsert m kv).map Prod.fst := by
      intro k hk hmem
      have hpm : ((envInsert m kv).map Prod.fst).Perm (kv.1 :: m.map Prod.fst) := by
        simpa using hperm2.map Prod.fst
      have hin : k ∈ kv.1 :: m.map Prod.fst := hpm.mem_iff.mp hmem
      rcases List.mem_cons.mp hin with he | hm3
      · exact hnd0.1 (he ▸ hk)
      · exact hdisj k (by simp [hk]) hm3
    obtain ⟨hs3, hp3⟩ := ih (envInsert m kv) hm2 hnd0.2 hdisj2
    refine ⟨hs3, ?_⟩
    have e1 : (envInsert m kv ++ rest).Perm ((kv :: m) ++ rest) :=
      hperm2.append_right rest
    have e3 : ((kv :: m) ++ rest).Perm (m ++ kv :: rest) := List.perm_middle.symm
    exact hp3.trans (e1.trans e3)

theorem buildEnvPairs_eq (ps1 ps2 : List (String × String))
    (hperm : ps1.Perm ps2) (hnd : (ps1.map Prod.fst).Nodup) :
    ps1.foldl envInsert [] = ps2.foldl envInsert [] := by
  have hnd2 : (ps2.map Prod.fst).Nodup := (hperm.map Prod.fst).nodup_iff.mp hnd
  obtain ⟨hs1, hp1⟩ := foldl_envInsert_sorted_perm ps1 [] (by simp) hnd (by simp)
  obtain ⟨hs2, hp2⟩ := foldl_envInsert_sorted_perm ps2 [] (by simp) hnd2 (by simp)
  have hp : (ps1.foldl envInsert []).Perm (ps2.foldl envInsert []) := by
    have a1 : (ps1.foldl envInsert []).Perm ps1 := by simpa using hp1
    have a2 : (ps2.foldl envInsert []).Perm ps2 := by simpa using hp2
    exact a1.trans (hperm.trans a2.symm)
  exact List.eq_of_perm_of_sorted hp hs1 hs2

/-- C8 (confirmed): two host `ExecuteProcessRequest` values that agree on
every projected field and whose flat `env` lists present the same key-value
pairs (no duplicate keys) in different orders lift to equal `ExecuteProcess`
nodes: the env is stored as the sorted `BTreeMap`, so the node keys are
identical. -/
theorem c8_env_order_irrelevant (E : Externs) (v1 v2 : Value)
    (hargv : E.project_multi_strs v1 "argv" = E.project_multi_strs v2 "argv")
    (hinput : E.project_ignoring_type v1 "input_files"
      = E.project_ignoring_type v2 "input_files")
    (hof : E.project_multi_strs v1 "output_files"
      = E.project_multi_strs v2 "output_files")
    (hod : E.project_multi_strs v1 "output_directories"
      = E.project_multi_strs v2 "output_directories")
    (ht : E.project_str v1 "timeout_seconds" = E.project_str v2 "timeout_seconds")
    (hd : E.project_str v1 "description" = E.project_str v2 "description")
    (he1 : (E.project_multi_strs v1 "env").length % 2 = 0)
    (he2 : (E.project_multi_strs v2 "env").length % 2 = 0)
    (hperm : (toPairs (E.project_multi_strs v1 "env")).Perm
      (toPairs (E.project_multi_strs v2 "env")))
    (hnodup : ((toPairs (E.project_multi_strs v1 "env")).map Prod.fst).Nodup) :
    ExecuteProcess.lift E v1 = ExecuteProcess.lift E v2 := by
  have henv : buildEnv (E.project_multi_strs v1 "env")
      = buildEnv (E.project_multi_strs v2 "env") := by
    unfold buildEnv
    exact buildEnvPairs_eq _ _ hperm hnodup
  have h1 : ¬ (E.project_multi_strs v1 "env").length % 2 ≠ 0 := by omega
  have h2 : ¬ (E.project_multi_strs v2 "env").length % 2 ≠ 0 := by omega
  simp only [ExecuteProcess.lift]
  rw [if_neg h1, if_neg h2, hinput, ht, hd, hargv, hof, hod, henv]

/-- C8 witness: the two subjects of `externsEnv` present the pairs
`(a,1), (b,2)` in opposite orders and lift identically. -/
theorem c8_witness :
    ExecuteProcess.lift externsEnv (.host 1) = ExecuteProcess.lift externsEnv (.host 2) :=
  c8_env_order_irrelevant externsEnv (.host 1) (.host 2) rfl rfl rfl rfl rfl rfl
    (by decide) (by decide) (by decide) (by decide)

end Nodes
